import Mathlib

/-!
Shallow embedding of the core of the Walmart retail sales forecasting
pipeline, together with proofs about it.

Embedded source files:
* `src/data_pipeline/feature_engineering.py` — the feature-engineering
  pipeline (`create_temporal_features`, `create_lag_features`,
  `create_rolling_features`, `create_economic_features`,
  `create_markdown_features`, `create_store_features`, `engineer_features`);
* `src/models/metrics.py` — `calculate_wmae`;
* `src/models/trainer.py` — `WalmartForecaster.create_train_val_split` and
  the metadata-persistence step at the end of `WalmartForecaster.train`;
* `src/models/generate_forecasts.py` — `generate_predictions` and
  `write_forecasts`.

Modelling conventions:
* a pandas DataFrame is a `List` of rows (a structure with one field per
  column); a column that can hold NaN/NaT is an `Option`;
* dates are integers (days since 1970-01-01); `pd.Timedelta(weeks = w)`
  is `7 * w` days; calendar fields (month, day, ISO week) are derived with
  the standard civil-calendar algorithms below;
* float arithmetic is idealised as `ℚ`; the floating-point square root
  used by `std()` is an explicit function parameter `sqrtQ`, and NaN
  results of `0/0` are modelled as `none`;
* `df.sort_values(...)` is modelled as a deterministic comparison sort
  (`sortValuesBy` below).  pandas' default quicksort leaves the relative
  order of tied keys unspecified, so any comparison sort is a faithful
  model on inputs whose sort keys are distinct.
-/

namespace WalmartSpec

/-! ## Generic sorting (model of `df.sort_values`) -/

/-- Insert `x` into `l` in front of the first element `y` with `le x y`. -/
def orderedInsert (le : α → α → Bool) (x : α) : List α → List α
  | [] => [x]
  | y :: ys => if le x y then x :: y :: ys else y :: orderedInsert le x ys

/-- Comparison sort used to model `df.sort_values(...)`. -/
def sortValuesBy (le : α → α → Bool) : List α → List α
  | [] => []
  | x :: xs => orderedInsert le x (sortValuesBy le xs)

theorem perm_orderedInsert (le : α → α → Bool) (x : α) (l : List α) :
    (orderedInsert le x l).Perm (x :: l) := by
  induction l with
  | nil => simp [orderedInsert]
  | cons y ys ih =>
      by_cases h : le x y = true
      · simp [orderedInsert, h]
      · simp only [orderedInsert, if_neg h]
        exact (ih.cons y).trans (List.Perm.swap x y ys)

theorem perm_sortValuesBy (le : α → α → Bool) (l : List α) :
    (sortValuesBy le l).Perm l := by
  induction l with
  | nil => simp [sortValuesBy]
  | cons x xs ih =>
      exact (perm_orderedInsert le x (sortValuesBy le xs)).trans (ih.cons x)

theorem pairwise_orderedInsert (le : α → α → Bool)
    (htot : ∀ a b, le a b = true ∨ le b a = true)
    (htrans : ∀ a b c, le a b = true → le b c = true → le a c = true)
    (x : α) (l : List α) (h : l.Pairwise (fun a b => le a b = true)) :
    (orderedInsert le x l).Pairwise (fun a b => le a b = true) := by
  induction l with
  | nil => simp [orderedInsert]
  | cons y ys ih =>
      by_cases hxy : le x y = true
      · simp only [orderedInsert, if_pos hxy]
        refine List.Pairwise.cons ?_ h
        intro z hz
        rcases List.mem_cons.mp hz with rfl | hz
        · exact hxy
        · exact htrans _ _ _ hxy (List.rel_of_pairwise_cons h hz)
      · have hyx : le y x = true := (htot x y).resolve_left hxy
        simp only [orderedInsert, if_neg hxy]
        refine List.Pairwise.cons ?_ (ih h.of_cons)
        intro z hz
        have hz2 := (perm_orderedInsert le x ys).mem_iff.mp hz
        rcases List.mem_cons.mp hz2 with rfl | hz2
        · exact hyx
        · exact List.rel_of_pairwise_cons h hz2

theorem pairwise_sortValuesBy (le : α → α → Bool)
    (htot : ∀ a b, le a b = true ∨ le b a = true)
    (htrans : ∀ a b c, le a b = true → le b c = true → le a c = true)
    (l : List α) :
    (sortValuesBy le l).Pairwise (fun a b => le a b = true) := by
  induction l with
  | nil => simp [sortValuesBy]
  | cons x xs ih => exact pairwise_orderedInsert le htot htrans x _ ih

theorem length_sortValuesBy (le : α → α → Bool) (l : List α) :
    (sortValuesBy le l).length = l.length :=
  (perm_sortValuesBy le l).length_eq

/-- Two sorted permutations of each other with pairwise-distinct sort keys
are equal, even when the comparison is only antisymmetric up to keys. -/
theorem eq_of_perm_of_sorted_keys {κ : Type} (key : α → κ)
    (le : α → α → Bool)
    (hanti : ∀ a b, le a b = true → le b a = true → key a = key b) :
    ∀ (l₁ l₂ : List α), l₁.Perm l₂ →
      l₁.Pairwise (fun a b => le a b = true) →
      l₂.Pairwise (fun a b => le a b = true) →
      (l₁.map key).Nodup → l₁ = l₂ := by
  intro l₁
  induction l₁ with
  | nil =>
      intro l₂ hp _ _ _
      exact hp.nil_eq
  | cons a t ih =>
      intro l₂ hp h₁ h₂ hnd
      have hnd2 : key a ∉ t.map key ∧ (t.map key).Nodup := by
        rw [List.map_cons, List.nodup_cons] at hnd
        exact hnd
      cases l₂ with
      | nil => exact absurd hp.symm.nil_eq (by simp)
      | cons b t₂ =>
          by_cases hab : a = b
          · subst hab
            have : t = t₂ := ih t₂ hp.cons_inv h₁.of_cons h₂.of_cons hnd2.2
            rw [this]
          · exfalso
            have hamem : a ∈ t₂ := by
              have := hp.subset (List.mem_cons_self a t)
              rcases List.mem_cons.mp this with h | h
              · exact absurd h hab
              · exact h
            have hbmem : b ∈ t := by
              have := hp.symm.subset (List.mem_cons_self b t₂)
              rcases List.mem_cons.mp this with h | h
              · exact absurd h.symm hab
              · exact h
            have h1 : le a b = true := List.rel_of_pairwise_cons h₁ hbmem
            have h2 : le b a = true := List.rel_of_pairwise_cons h₂ hamem
            have hkey : key a = key b := hanti _ _ h1 h2
            exact hnd2.1 (hkey ▸ List.mem_map_of_mem key hbmem)

/-! ## Small list helpers -/

/-- Model of `series.max()` (`none` on an empty column, mirroring NaN). -/
def listMax? : List ℤ → Option ℤ
  | [] => none
  | x :: xs => some (xs.foldl max x)

/-- Model of `series.min()`. -/
def listMin? : List ℤ → Option ℤ
  | [] => none
  | x :: xs => some (xs.foldl min x)

theorem foldl_max_le (xs : List ℤ) : ∀ (a : ℤ), ∀ x ∈ a :: xs, x ≤ xs.foldl max a := by
  induction xs with
  | nil => intro a x hx; simp at hx; simp [hx]
  | cons y ys ih =>
      intro a x hx
      rcases List.mem_cons.mp hx with rfl | hx
      · have := ih (max x y) (max x y) (List.mem_cons_self _ _)
        exact le_trans (le_max_left x y) (by simpa [List.foldl_cons] using this)
      · rcases List.mem_cons.mp hx with rfl | hx
        · have := ih (max a x) (max a x) (List.mem_cons_self _ _)
          exact le_trans (le_max_right a x) (by simpa [List.foldl_cons] using this)
        · exact ih (max a y) x (List.mem_cons_of_mem _ hx)

theorem foldl_max_mem (xs : List ℤ) : ∀ (a : ℤ), xs.foldl max a ∈ a :: xs := by
  induction xs with
  | nil => intro a; simp [List.foldl_nil]
  | cons y ys ih =>
      intro a
      have := ih (max a y)
      rcases List.mem_cons.mp this with h | h
      · rcases max_choice a y with hm | hm
        · exact List.mem_cons.mpr (Or.inl (by simpa [List.foldl_cons, hm] using h))
        · refine List.mem_cons.mpr (Or.inr (List.mem_cons.mpr (Or.inl ?_)))
          simpa [List.foldl_cons, hm] using h
      · exact List.mem_cons.mpr (Or.inr (List.mem_cons.mpr (Or.inr (by simpa [List.foldl_cons] using h))))

theorem le_of_listMax? {l : List ℤ} {m : ℤ} (h : listMax? l = some m) :
    ∀ x ∈ l, x ≤ m := by
  cases l with
  | nil => simp [listMax?] at h
  | cons a xs =>
      intro x hx
      have hm : m = xs.foldl max a := by simpa [listMax?] using h.symm
      exact hm ▸ foldl_max_le xs a x hx

theorem listMax?_mem {l : List ℤ} {m : ℤ} (h : listMax? l = some m) : m ∈ l := by
  cases l with
  | nil => simp [listMax?] at h
  | cons a xs =>
      have hm : m = xs.foldl max a := by simpa [listMax?] using h.symm
      exact hm ▸ foldl_max_mem xs a

theorem foldl_min_le (xs : List ℤ) : ∀ (a : ℤ), ∀ x ∈ a :: xs, xs.foldl min a ≤ x := by
  induction xs with
  | nil => intro a x hx; simp at hx; simp [hx]
  | cons y ys ih =>
      intro a x hx
      rcases List.mem_cons.mp hx with rfl | hx
      · have := ih (min x y) (min x y) (List.mem_cons_self _ _)
        exact le_trans (by simpa [List.foldl_cons] using this) (min_le_left x y)
      · rcases List.mem_cons.mp hx with rfl | hx
        · have := ih (min a x) (min a x) (List.mem_cons_self _ _)
          exact le_trans (by simpa [List.foldl_cons] using this) (min_le_right a x)
        · exact ih (min a y) x (List.mem_cons_of_mem _ hx)

theorem foldl_min_mem (xs : List ℤ) : ∀ (a : ℤ), xs.foldl min a ∈ a :: xs := by
  induction xs with
  | nil => intro a; simp [List.foldl_nil]
  | cons y ys ih =>
      intro a
      have := ih (min a y)
      rcases List.mem_cons.mp this with h | h
      · rcases min_choice a y with hm | hm
        · exact List.mem_cons.mpr (Or.inl (by simpa [List.foldl_cons, hm] using h))
        · refine List.mem_cons.mpr (Or.inr (List.mem_cons.mpr (Or.inl ?_)))
          simpa [List.foldl_cons, hm] using h
      · exact List.mem_cons.mpr (Or.inr (List.mem_cons.mpr (Or.inr (by simpa [List.foldl_cons] using h))))

theorem listMin?_le {l : List ℤ} {m : ℤ} (h : listMin? l = some m) :
    ∀ x ∈ l, m ≤ x := by
  cases l with
  | nil => simp [listMin?] at h
  | cons a xs =>
      intro x hx
      have hm : m = xs.foldl min a := by simpa [listMin?] using h.symm
      exact hm ▸ foldl_min_le xs a x hx

/-- The last `n` elements of a list (a trailing window). -/
def takeRight (n : ℕ) (l : List α) : List α := l.drop (l.length - n)

/-- The element `k` positions from the end of `xs` (`none` when `k = 0` or
`k` exceeds the length); this realises `groupby(...).shift(k)` reading the
value `k` rows earlier. -/
def nthFromEnd (xs : List ℚ) (k : ℕ) : Option ℚ :=
  if k ≤ xs.length then xs[xs.length - k]? else none

/-- Mean of a list of rationals. -/
def listMean (l : List ℚ) : ℚ := l.sum / l.length

/-- Sample variance (ddof = 1), as used by pandas `std()` before the square
root. -/
def sampleVar (l : List ℚ) : ℚ :=
  ((l.map (fun x => (x - listMean l) ^ 2)).sum) / ((l.length : ℚ) - 1)

/-! ## Calendar arithmetic

Dates are days since 1970-01-01.  `civilFromDays` / `daysFromCivil` are the
standard civil-calendar conversion algorithms; `isoWeekOf` is the ISO-8601
week number shared by `pandas.Series.dt.isocalendar().week` and
`datetime.date.isocalendar()`. -/

/-- Convert days-since-epoch to `(year, month, day)` in the proleptic
Gregorian calendar. -/
def civilFromDays (z0 : ℤ) : ℤ × ℕ × ℕ :=
  let z : ℤ := z0 + 719468
  let era : ℤ := z / 146097
  let doe : ℕ := (z - era * 146097).toNat
  let yoe : ℕ := (doe - doe / 1460 + doe / 36524 - doe / 146096) / 365
  let doy : ℕ := doe - (365 * yoe + yoe / 4 - yoe / 100)
  let mp : ℕ := (5 * doy + 2) / 153
  let d : ℕ := doy - (153 * mp + 2) / 5 + 1
  let m : ℕ := if mp < 10 then mp + 3 else mp - 9
  (era * 400 + yoe + (if m ≤ 2 then 1 else 0), m, d)

/-- Convert a civil `(year, month, day)` to days since 1970-01-01. -/
def daysFromCivil (y : ℤ) (m d : ℕ) : ℤ :=
  let y2 : ℤ := if m ≤ 2 then y - 1 else y
  let era : ℤ := y2 / 400
  let yoe : ℕ := (y2 - era * 400).toNat
  let mp : ℕ := (m + 9) % 12
  let doy : ℕ := (153 * mp + 2) / 5 + d - 1
  let doe : ℕ := yoe * 365 + yoe / 4 - yoe / 100 + doy
  era * 146097 + (doe : ℤ) - 719468

/-- Year of a days-since-epoch date. -/
def yearOf (z : ℤ) : ℤ := (civilFromDays z).1

/-- Month (1–12) of a days-since-epoch date. -/
def monthOf (z : ℤ) : ℕ := (civilFromDays z).2.1

/-- Day of month of a days-since-epoch date. -/
def dayOf (z : ℤ) : ℕ := (civilFromDays z).2.2

/-- Whether a year is a Gregorian leap year. -/
def isLeapYear (y : ℤ) : Bool := (y % 4 = 0 && y % 100 ≠ 0) || y % 400 = 0

/-- Number of days in a month. -/
def daysInMonth (y : ℤ) (m : ℕ) : ℕ :=
  if m = 2 then (if isLeapYear y then 29 else 28)
  else if m = 4 ∨ m = 6 ∨ m = 9 ∨ m = 11 then 30 else 31

/-- Python `date.weekday()`: Monday = 0 … Sunday = 6 (1970-01-01 was a
Thursday). -/
def pyWeekday (z : ℤ) : ℕ := ((z + 3) % 7).toNat

/-- ISO-8601 week number, as returned both by
`Series.dt.isocalendar().week` and by `date.isocalendar()[1]`. -/
def isoWeekOf (z : ℤ) : ℕ :=
  let thursday := z + 3 - pyWeekday z
  let jan1 := daysFromCivil (civilFromDays thursday).1 1 1
  ((thursday - jan1) / 7).toNat + 1

theorem one_le_monthOf (z : ℤ) : 1 ≤ monthOf z := by
  unfold monthOf civilFromDays
  dsimp only
  split <;> omega

/-! ## Data model

Row types for the three input tables and for the merged/engineered frame.
`MRow` carries every column the pipeline ever creates; columns that a given
stage has not yet computed (or that the merge left as NaN) are `none`. -/

/-- Store category (`store_type` column, values `A`/`B`/`C`). -/
inductive SType
  | A
  | B
  | C
deriving DecidableEq, Repr

/-- One row of the raw sales table. -/
structure SalesRow where
  store_id : ℕ
  dept_id : ℕ
  date : ℤ
  weekly_sales : ℚ
  is_holiday : Bool
deriving DecidableEq, Repr

/-- One row of the economic-indicators (`features`) table; markdowns may be
missing. -/
structure FeatRow where
  store_id : ℕ
  date : ℤ
  temperature : ℚ
  fuel_price : ℚ
  markdown1 : Option ℚ
  markdown2 : Option ℚ
  markdown3 : Option ℚ
  markdown4 : Option ℚ
  markdown5 : Option ℚ
  cpi : ℚ
  unemployment : ℚ
  is_holiday : Bool
deriving DecidableEq, Repr

/-- One row of the store-metadata table. -/
structure StoreRow where
  store_id : ℕ
  store_type : SType
  size : ℚ
deriving DecidableEq, Repr

/-- A row of the merged sales/indicators frame, with slots for every
engineered column.  After `engineer_features` the `date` column is renamed
`feature_date`; in this embedding `MRow.feature_date` is that rename. -/
structure MRow where
  store_id : ℕ
  dept_id : ℕ
  date : ℤ
  weekly_sales : ℚ
  is_holiday : Bool
  temperature : Option ℚ
  fuel_price : Option ℚ
  markdown1 : Option ℚ
  markdown2 : Option ℚ
  markdown3 : Option ℚ
  markdown4 : Option ℚ
  markdown5 : Option ℚ
  cpi : Option ℚ
  unemployment : Option ℚ
  week_of_year : Option ℕ
  month : Option ℕ
  quarter : Option ℕ
  is_month_start : Option ℕ
  is_month_end : Option ℕ
  sales_lag_1 : Option ℚ
  sales_lag_2 : Option ℚ
  sales_lag_4 : Option ℚ
  sales_lag_8 : Option ℚ
  sales_lag_52 : Option ℚ
  rolling_mean_4 : Option ℚ
  rolling_std_4 : Option ℚ
  rolling_min_4 : Option ℚ
  rolling_max_4 : Option ℚ
  rolling_mean_13 : Option ℚ
  rolling_std_13 : Option ℚ
  rolling_mean_52 : Option ℚ
  rolling_std_52 : Option ℚ
  temperature_deviation : Option ℚ
  fuel_price_change : Option ℚ
  cpi_change : Option ℚ
  unemployment_change : Option ℚ
  total_markdown : Option ℚ
  has_markdown : Option ℕ
  markdown_count : Option ℕ
  store_type_a : Option ℕ
  store_type_b : Option ℕ
  store_type_c : Option ℕ
  size_normalized : Option ℚ
deriving DecidableEq, Repr

/-- The `date` column after the final rename to `feature_date`. -/
def MRow.feature_date (r : MRow) : ℤ := r.date

/-- Sort key of `df.sort_values(['store_id', 'dept_id', 'date'])`. -/
def sddKey (r : MRow) : ℕ × ℕ × ℤ := (r.store_id, r.dept_id, r.date)

/-- The `groupby(['store_id', 'dept_id'])` key. -/
def sdPair (r : MRow) : ℕ × ℕ := (r.store_id, r.dept_id)

/-- Lexicographic comparison on (store_id, dept_id, date). -/
def leSDD (a b : MRow) : Bool :=
  decide (a.store_id < b.store_id ∨ (a.store_id = b.store_id ∧
    (a.dept_id < b.dept_id ∨ (a.dept_id = b.dept_id ∧ a.date ≤ b.date))))

/-- Lexicographic comparison on (store_id, date), used by the economic
builder's `sort_values(['store_id', 'date'])`. -/
def leSD (a b : MRow) : Bool :=
  decide (a.store_id < b.store_id ∨ (a.store_id = b.store_id ∧ a.date ≤ b.date))

theorem leSDD_total (a b : MRow) : leSDD a b = true ∨ leSDD b a = true := by
  simp only [leSDD, decide_eq_true_eq]
  omega

theorem leSDD_trans (a b c : MRow) :
    leSDD a b = true → leSDD b c = true → leSDD a c = true := by
  simp only [leSDD, decide_eq_true_eq]
  omega

theorem leSDD_key_antisymm (a b : MRow) :
    leSDD a b = true → leSDD b a = true → sddKey a = sddKey b := by
  simp only [leSDD, decide_eq_true_eq, sddKey, Prod.mk.injEq]
  omega

theorem leSD_total (a b : MRow) : leSD a b = true ∨ leSD b a = true := by
  simp only [leSD, decide_eq_true_eq]
  omega

theorem leSD_trans (a b c : MRow) :
    leSD a b = true → leSD b c = true → leSD a c = true := by
  simp only [leSD, decide_eq_true_eq]
  omega

/-! ## Feature builders (`src/data_pipeline/feature_engineering.py`) -/

/-- Per-row body of `create_temporal_features`: week-of-year, month,
quarter and the pandas month-boundary flags (`dt.is_month_start` is true
exactly on day 1, `dt.is_month_end` exactly on the month's last day),
encoded as 0/1. -/
def temporal_update (r : MRow) : MRow :=
  { r with
    week_of_year := some (isoWeekOf r.date)
    month := some (monthOf r.date)
    quarter := some ((monthOf r.date + 2) / 3)
    is_month_start := some (if dayOf r.date = 1 then 1 else 0)
    is_month_end :=
      some (if dayOf r.date = daysInMonth (yearOf r.date) (monthOf r.date) then 1 else 0) }

/-- Model of `create_temporal_features` (feature_engineering.py lines
13–33): a pure per-row map over the frame. -/
def create_temporal_features (df : List MRow) : List MRow :=
  df.map temporal_update

/-- Write the five `sales_lag_k` columns of one row from `p`, the list of
this row's group predecessors' target values in date order;
`groupby(...).shift(k)` reads the value `k` positions from the end of `p`. -/
def setLags (r : MRow) (p : List ℚ) : MRow :=
  { r with
    sales_lag_1 := nthFromEnd p 1
    sales_lag_2 := nthFromEnd p 2
    sales_lag_4 := nthFromEnd p 4
    sales_lag_8 := nthFromEnd p 8
    sales_lag_52 := nthFromEnd p 52 }

/-- Walk the sorted frame accumulating the already-visited rows `seen`;
each row's lags come from the previously seen rows of its own
(store_id, dept_id) group. -/
def lagGo (seen : List MRow) : List MRow → List MRow
  | [] => []
  | r :: rest =>
      setLags r (((seen.filter (fun x => decide (sdPair x = sdPair r))).map MRow.weekly_sales))
        :: lagGo (seen ++ [r]) rest

/-- Model of `create_lag_features` (feature_engineering.py lines 36–57)
with the default lags [1, 2, 4, 8, 52]: sort by (store_id, dept_id, date),
then shift the target within each (store_id, dept_id) group. -/
def create_lag_features (df : List MRow) : List MRow :=
  lagGo [] (sortValuesBy leSDD df)

/-- Trailing window of size `w` ending at the current value `cur`, built
from the group predecessors `p` (`rolling(window=w, min_periods=1)`). -/
def rollWindow (w : ℕ) (p : List ℚ) (cur : ℚ) : List ℚ :=
  takeRight w (p ++ [cur])

/-- Rolling mean over a trailing window (`min_periods=1`, so the window is
never empty once the row itself is included). -/
def rollMean (w : ℕ) (p : List ℚ) (cur : ℚ) : ℚ :=
  listMean (rollWindow w p cur)

/-- Rolling sample standard deviation; pandas `std()` uses ddof = 1 and so
is NaN (modelled `none`) on a single observation. -/
def rollStd (sqrtQ : ℚ → ℚ) (w : ℕ) (p : List ℚ) (cur : ℚ) : Option ℚ :=
  if 2 ≤ (rollWindow w p cur).length then some (sqrtQ (sampleVar (rollWindow w p cur)))
  else none

/-- Minimum of a trailing window. -/
def rollMin (w : ℕ) (p : List ℚ) (cur : ℚ) : Option ℚ :=
  match rollWindow w p cur with
  | [] => none
  | x :: xs => some (xs.foldl min x)

/-- Maximum of a trailing window. -/
def rollMax (w : ℕ) (p : List ℚ) (cur : ℚ) : Option ℚ :=
  match rollWindow w p cur with
  | [] => none
  | x :: xs => some (xs.foldl max x)

/-- Write all rolling-statistic columns (windows 4, 13, 52, with min/max
only for the 4-week window) of one row. -/
def setRolling (sqrtQ : ℚ → ℚ) (r : MRow) (p : List ℚ) : MRow :=
  { r with
    rolling_mean_4 := some (rollMean 4 p r.weekly_sales)
    rolling_std_4 := rollStd sqrtQ 4 p r.weekly_sales
    rolling_min_4 := rollMin 4 p r.weekly_sales
    rolling_max_4 := rollMax 4 p r.weekly_sales
    rolling_mean_13 := some (rollMean 13 p r.weekly_sales)
    rolling_std_13 := rollStd sqrtQ 13 p r.weekly_sales
    rolling_mean_52 := some (rollMean 52 p r.weekly_sales)
    rolling_std_52 := rollStd sqrtQ 52 p r.weekly_sales }

/-- Walk of the sorted frame for the rolling builder. -/
def rollGo (sqrtQ : ℚ → ℚ) (seen : List MRow) : List MRow → List MRow
  | [] => []
  | r :: rest =>
      setRolling sqrtQ r
          (((seen.filter (fun x => decide (sdPair x = sdPair r))).map MRow.weekly_sales))
        :: rollGo sqrtQ (seen ++ [r]) rest

/-- Model of `create_rolling_features` (feature_engineering.py lines
60–98) with the default windows [4, 13, 52]. -/
def create_rolling_features (sqrtQ : ℚ → ℚ) (df : List MRow) : List MRow :=
  rollGo sqrtQ [] (sortValuesBy leSDD df)

/-- Mean of a nullable column over one store's rows, skipping NaN as
pandas `mean()` does; `none` when no value is present. -/
def storeColMean (get : MRow → Option ℚ) (df : List MRow) (sid : ℕ) : Option ℚ :=
  let vals := (df.filter (fun x => decide (x.store_id = sid))).filterMap get
  if vals.length = 0 then none else some (listMean vals)

/-- Period-over-period difference `x.diff()`: current minus previous value
in the same store group, `none` on the group's first row or when either
value is missing. -/
def diffPrev (get : MRow → Option ℚ) (prev : Option MRow) (r : MRow) : Option ℚ :=
  (get r).bind (fun c => prev.bind (fun p => (get p).map (fun pv => c - pv)))

/-- Walk of the (store_id, date)-sorted frame for the economic builder;
`all` is the whole sorted frame (for the per-store means), `seen` the rows
already emitted. -/
def ecoGo (all : List MRow) (seen : List MRow) : List MRow → List MRow
  | [] => []
  | r :: rest =>
      let prev := (seen.filter (fun x => decide (x.store_id = r.store_id))).getLast?
      { r with
        temperature_deviation :=
          (r.temperature).bind
            (fun t => (storeColMean MRow.temperature all r.store_id).map (fun m => t - m))
        fuel_price_change := diffPrev MRow.fuel_price prev r
        cpi_change := diffPrev MRow.cpi prev r
        unemployment_change := diffPrev MRow.unemployment prev r }
        :: ecoGo all (seen ++ [r]) rest

/-- Model of `create_economic_features` (feature_engineering.py lines
101–137): sort by (store_id, date), then per-store deviation-from-mean for
temperature and per-store diffs for fuel price, CPI and unemployment. -/
def create_economic_features (df : List MRow) : List MRow :=
  let s := sortValuesBy leSD df
  ecoGo s [] s

/-- Model of `create_markdown_features` (feature_engineering.py lines
140–169): fill missing markdowns with 0, then total, 0/1 flag and count of
active markdowns. -/
def create_markdown_features (df : List MRow) : List MRow :=
  df.map (fun r =>
    let m1 := r.markdown1.getD 0
    let m2 := r.markdown2.getD 0
    let m3 := r.markdown3.getD 0
    let m4 := r.markdown4.getD 0
    let m5 := r.markdown5.getD 0
    let total := m1 + m2 + m3 + m4 + m5
    { r with
      markdown1 := some m1
      markdown2 := some m2
      markdown3 := some m3
      markdown4 := some m4
      markdown5 := some m5
      total_markdown := some total
      has_markdown := some (if 0 < total then 1 else 0)
      markdown_count := some ((if 0 < m1 then 1 else 0) + (if 0 < m2 then 1 else 0)
        + (if 0 < m3 then 1 else 0) + (if 0 < m4 then 1 else 0) + (if 0 < m5 then 1 else 0)) })

/-- Model of `create_store_features` (feature_engineering.py lines
172–200): left-join store metadata on store_id, one-hot encode the store
type (a missing store compares unequal to every type, hence all zeros, as
in pandas), and z-normalise the size column with its NaN-skipping mean and
sample std. -/
def create_store_features (sqrtQ : ℚ → ℚ) (df : List MRow) (stores_df : List StoreRow) :
    List MRow :=
  let joined : List (MRow × Option StoreRow) :=
    df.flatMap (fun r =>
      let ms := stores_df.filter (fun st => decide (st.store_id = r.store_id))
      if ms.isEmpty then [(r, none)] else ms.map (fun st => (r, some st)))
  let sizes := joined.filterMap (fun pr => pr.2.map StoreRow.size)
  let szMean : Option ℚ := if sizes.length = 0 then none else some (listMean sizes)
  let szStd : Option ℚ := if 2 ≤ sizes.length then some (sqrtQ (sampleVar sizes)) else none
  joined.map (fun pr =>
    { pr.1 with
      store_type_a := some (if pr.2.any (fun st => decide (st.store_type = SType.A)) then 1 else 0)
      store_type_b := some (if pr.2.any (fun st => decide (st.store_type = SType.B)) then 1 else 0)
      store_type_c := some (if pr.2.any (fun st => decide (st.store_type = SType.C)) then 1 else 0)
      size_normalized :=
        pr.2.bind (fun st => szMean.bind (fun m => szStd.map (fun sd => (st.size - m) / sd))) })

/-- Initial merged row: sales columns plus the indicator columns of the
(at most one) matching indicators row; the indicators' own `is_holiday` is
dropped in favour of the sales flag, and all engineered columns start
empty. -/
def mkMerged (s : SalesRow) (f : Option FeatRow) : MRow :=
  { store_id := s.store_id
    dept_id := s.dept_id
    date := s.date
    weekly_sales := s.weekly_sales
    is_holiday := s.is_holiday
    temperature := f.map FeatRow.temperature
    fuel_price := f.map FeatRow.fuel_price
    markdown1 := f.bind FeatRow.markdown1
    markdown2 := f.bind FeatRow.markdown2
    markdown3 := f.bind FeatRow.markdown3
    markdown4 := f.bind FeatRow.markdown4
    markdown5 := f.bind FeatRow.markdown5
    cpi := f.map FeatRow.cpi
    unemployment := f.map FeatRow.unemployment
    week_of_year := none
    month := none
    quarter := none
    is_month_start := none
    is_month_end := none
    sales_lag_1 := none
    sales_lag_2 := none
    sales_lag_4 := none
    sales_lag_8 := none
    sales_lag_52 := none
    rolling_mean_4 := none
    rolling_std_4 := none
    rolling_min_4 := none
    rolling_max_4 := none
    rolling_mean_13 := none
    rolling_std_13 := none
    rolling_mean_52 := none
    rolling_std_52 := none
    temperature_deviation := none
    fuel_price_change := none
    cpi_change := none
    unemployment_change := none
    total_markdown := none
    has_markdown := none
    markdown_count := none
    store_type_a := none
    store_type_b := none
    store_type_c := none
    size_normalized := none }

/-- Left join of sales with the indicators table on (store_id, date): each
sales row is the anchor; an unmatched row keeps NaN indicator columns, and
each matching indicator row produces one output row. -/
def merge_sales_features (sales_df : List SalesRow) (features_df : List FeatRow) :
    List MRow :=
  sales_df.flatMap (fun s =>
    let ms := features_df.filter (fun f => decide (f.store_id = s.store_id ∧ f.date = s.date))
    if ms.isEmpty then [mkMerged s none] else ms.map (fun f => mkMerged s (some f)))

/-- Model of `engineer_features` (feature_engineering.py lines 203–257):
left-join sales with indicators, then apply the six builders in order; the
final rename of `date` to `feature_date` is `MRow.feature_date`. -/
def engineer_features (sqrtQ : ℚ → ℚ) (sales_df : List SalesRow)
    (features_df : List FeatRow) (stores_df : List StoreRow) : List MRow :=
  create_store_features sqrtQ
    (create_markdown_features
      (create_economic_features
        (create_rolling_features sqrtQ
          (create_lag_features
            (create_temporal_features
              (merge_sales_features sales_df features_df))))))
    stores_df

/-! ## Metrics (`src/models/metrics.py`) -/

/-- Model of `calculate_wmae` (metrics.py lines 13–47): weight 5 for
holiday rows, 1 otherwise, then the weighted mean absolute error.  numpy's
`0.0 / 0.0 = NaN` on an empty input is modelled as `none`; the function
raises nothing. -/
def calculate_wmae (y_true y_pred : List ℚ) (is_holiday : List Bool) : Option ℚ :=
  let weights := is_holiday.map (fun b => if b then (5 : ℚ) else 1)
  let absolute_errors := List.zipWith (fun a b => |a - b|) y_true y_pred
  let weighted_errors := List.zipWith (· * ·) weights absolute_errors
  if weights.sum = 0 then none else some (weighted_errors.sum / weights.sum)

/-! ## Trainer (`src/models/trainer.py`) -/

/-- Model of `WalmartForecaster.create_train_val_split` (trainer.py lines
83–110): sort by feature_date, cut `val_weeks` weeks before the maximum
date, train strictly before the cutoff, validation on/after it.  An empty
frame yields two empty parts (every NaN comparison is false in pandas). -/
def create_train_val_split (df : List MRow) (val_weeks : ℕ) : List MRow × List MRow :=
  let sorted := sortValuesBy (fun a b => decide (a.feature_date ≤ b.feature_date)) df
  match listMax? (sorted.map MRow.feature_date) with
  | none => ([], [])
  | some max_date =>
      let val_start_date := max_date - 7 * (val_weeks : ℤ)
      (sorted.filter (fun r => decide (r.feature_date < val_start_date)),
       sorted.filter (fun r => decide (val_start_date ≤ r.feature_date)))

/-- The metric values `train` returns. -/
structure TrainMetrics where
  wmae : ℚ
  mae : ℚ
  rmse : ℚ
deriving DecidableEq, Repr

/-- Model of the tail of `WalmartForecaster.train` (trainer.py lines
212–221): after computing the metrics it calls `_save_model_metadata`
directly — there is no try/except around the call — and only then returns
the metrics.  `save_result` is the outcome of the metadata write to the
database (`_save_model_metadata`, lines 223–250, itself raises whatever
`to_sql` raises). -/
def train_metadata_step (metrics : TrainMetrics) (save_result : Except String Unit) :
    Except String TrainMetrics :=
  match save_result with
  | Except.error e => Except.error e
  | Except.ok _ => Except.ok metrics

/-! ## Forecast generation (`src/models/generate_forecasts.py`) -/

/-- Round half to even (Python's `round`), at rational precision. -/
def roundHalfEven (q : ℚ) : ℤ :=
  let f := ⌊q⌋
  if q - f < 1 / 2 then f
  else if (1 : ℚ) / 2 < q - f then f + 1
  else if f % 2 = 0 then f else f + 1

/-- Python `round(q, n)`. -/
def roundTo (n : ℕ) (q : ℚ) : ℚ :=
  (roundHalfEven (q * 10 ^ n) : ℚ) / 10 ^ n

/-- The per-horizon feature vector `generate_predictions` builds: the
copied base row with its calendar fields overwritten, plus the two
quarter-boundary flags the generator adds (they are not columns of the
engineered-features table). -/
structure GenFeatureRow where
  base : MRow
  is_quarter_start : ℕ
  is_quarter_end : ℕ
deriving DecidableEq, Repr

/-- Model of the feature-vector construction in `generate_predictions`
(generate_forecasts.py lines 160–200): copy the latest feature row, then
overwrite week_of_year, month, quarter (as `(month - 1) // 3 + 1`) and the
approximate period flags `is_month_start = day <= 7`,
`is_month_end = day >= 24`, and set the quarter boundary flags from the
month.  All other (lag/rolling/economic/markdown/store) columns keep the
base row's values.  The `year`/`day_of_week`/`day_of_month`/`day_of_year`
branches are skipped because the engineered-features schema has no such
columns, so a model trained on it does not expect them. -/
def build_forecast_feature_row (row : MRow) (forecast_date : ℤ) : GenFeatureRow :=
  { base :=
      { row with
        week_of_year := some (isoWeekOf forecast_date)
        month := some (monthOf forecast_date)
        quarter := some ((monthOf forecast_date - 1) / 3 + 1)
        is_month_start := some (if dayOf forecast_date ≤ 7 then 1 else 0)
        is_month_end := some (if 24 ≤ dayOf forecast_date then 1 else 0) }
    is_quarter_start :=
      if monthOf forecast_date = 1 ∨ monthOf forecast_date = 4 ∨
          monthOf forecast_date = 7 ∨ monthOf forecast_date = 10 then 1 else 0
    is_quarter_end :=
      if monthOf forecast_date = 3 ∨ monthOf forecast_date = 6 ∨
          monthOf forecast_date = 9 ∨ monthOf forecast_date = 12 then 1 else 0 }

/-- One row of the forecasts table. -/
structure ForecastRow where
  store_id : ℕ
  dept_id : ℕ
  forecast_date : ℤ
  predicted_sales : ℚ
  prediction_lower : ℚ
  prediction_upper : ℚ
  model_name : String
  model_version : String
  confidence_score : ℚ
deriving DecidableEq, Repr

/-- Model of `generate_predictions` (generate_forecasts.py lines 142–230),
parameterised by the trained model's prediction function.  The forecast
dates are the single global `features_df['feature_date'].max()` plus 1 to
`forecast_weeks` weeks, reused for every row; `future_dates.index(...)` is
the position `w` because the dates strictly increase.  Predictions are
clamped at 0, the band is the `max(0.15 * pred, 100)` heuristic, and an
empty frame produces no forecasts (the row loop is empty). -/
def generate_predictions (predict : GenFeatureRow → ℚ) (features_df : List MRow)
    (forecast_weeks : ℕ) : List ForecastRow :=
  match listMax? (features_df.map MRow.feature_date) with
  | none => []
  | some last_date =>
      features_df.flatMap (fun row =>
        (List.range forecast_weeks).map (fun (w : ℕ) =>
          let forecast_date := last_date + 7 * ((w : ℤ) + 1)
          let pred0 := predict (build_forecast_feature_row row forecast_date)
          let pred := max pred0 0
          let std_estimate := max (pred * (15 / 100)) 100
          let lower := max (pred - (196 / 100) * std_estimate) 0
          let upper := pred + (196 / 100) * std_estimate
          { store_id := row.store_id
            dept_id := row.dept_id
            forecast_date := forecast_date
            predicted_sales := roundTo 2 pred
            prediction_lower := roundTo 2 lower
            prediction_upper := roundTo 2 upper
            model_name := "lightgbm_forecaster"
            model_version := "v1.0"
            confidence_score := roundTo 4 (85 / 100 - (2 / 100) * (w : ℚ)) }))

/-- Model of `write_forecasts` (generate_forecasts.py lines 233–252).  The
code first runs `DELETE FROM forecasts` and **commits** that transaction,
and only afterwards appends the new rows with `to_sql`; `append_succeeds`
is whether that second step completes.  The observable table state after
the call is therefore the new rows on success, and the already-committed
empty table when the append faults. -/
def write_forecasts (forecast_df old_forecasts : List ForecastRow)
    (append_succeeds : Bool) : List ForecastRow :=
  let cleared : List ForecastRow := []
  if append_succeeds then forecast_df else cleared

/-! ## Sample rows used to evaluate the definitions on concrete inputs -/

/-- A bare sales-only merged row (no indicator match, nothing engineered
yet). -/
def sampleRow (sid did : ℕ) (dt : ℤ) (ws : ℚ) : MRow :=
  mkMerged ⟨sid, did, dt, ws, false⟩ none

/-! ## Claim C8 -/

/-- C8: on empty inputs `calculate_wmae` raises nothing and produces the
NaN of `0.0 / 0.0` (modelled `none`) — there is no empty-input guard, so
the specified `EmptyInputError` behaviour is absent from the code. -/
theorem calculate_wmae_empty_input_is_nan :
    calculate_wmae [] [] [] = none := rfl

/-! ## Claim C9 -/

/-- C9: when the span of `feature_date` does not exceed `val_weeks` weeks,
`create_train_val_split` returns normally with an empty train partition
instead of failing fast: on a one-row frame with `val_weeks = 8` the cutoff
is 56 days before the only date and the function silently returns
`([], all rows)` (the only report is an info-level size log). -/
theorem create_train_val_split_empty_train_silent :
    create_train_val_split [sampleRow 1 1 0 100] 8 = ([], [sampleRow 1 1 0 100]) := by
  decide

/-! ## Claim C6 -/

/-- A concrete pre-existing forecast row. -/
def oldForecastRow : ForecastRow :=
  ⟨1, 1, 14, 120, 100, 140, "lightgbm_forecaster", "v1.0", 85 / 100⟩

/-- A concrete newly generated forecast row. -/
def newForecastRow : ForecastRow :=
  ⟨1, 1, 21, 130, 110, 150, "lightgbm_forecaster", "v1.0", 83 / 100⟩

/-- C6: `write_forecasts` is not an all-or-nothing replace.  The `DELETE`
is committed in its own transaction before the insert, so when the append
step faults the resulting table is empty — a state that is neither the
prior forecasts (which the claim says must survive a failure) nor the new
generation. -/
theorem write_forecasts_failed_append_loses_old :
    write_forecasts [newForecastRow] [oldForecastRow] false = []
    ∧ write_forecasts [newForecastRow] [oldForecastRow] false ≠ [oldForecastRow]
    ∧ write_forecasts [newForecastRow] [oldForecastRow] false ≠ [newForecastRow] := by
  refine ⟨rfl, ?_, ?_⟩ <;> simp [write_forecasts]

/-! ## Claim C7 -/

/-- C7: a failing metadata write propagates out of `train` — the call to
`_save_model_metadata` has no try/except, so the error is raised and the
computed metrics are not returned, contradicting the best-effort
("logged, not raised") contract. -/
theorem train_metadata_failure_propagates (m : TrainMetrics) (e : String) :
    train_metadata_step m (Except.error e) = Except.error e
    ∧ train_metadata_step m (Except.error e) ≠ Except.ok m := by
  exact ⟨rfl, by simp [train_metadata_step]⟩

/-- C7 instantiated: a concrete metadata-write failure makes `train` raise
instead of returning the concrete metrics. -/
theorem train_metadata_failure_propagates_witness :
    train_metadata_step ⟨1, 2, 3⟩ (Except.error "db down") = Except.error "db down"
    ∧ train_metadata_step ⟨1, 2, 3⟩ (Except.error "db down") ≠ Except.ok ⟨1, 2, 3⟩ :=
  train_metadata_failure_propagates ⟨1, 2, 3⟩ "db down"

/-! ## Claim C2 -/

theorem listMin?_mem {l : List ℤ} {m : ℤ} (h : listMin? l = some m) : m ∈ l := by
  cases l with
  | nil => simp [listMin?] at h
  | cons a xs =>
      have hm : m = xs.foldl min a := by simpa [listMin?] using h.symm
      exact hm ▸ foldl_min_mem xs a

theorem length_filter_add_not (p : α → Bool) (l : List α) :
    (l.filter p).length + (l.filter (fun a => !(p a))).length = l.length := by
  induction l with
  | nil => rfl
  | cons a t ih =>
      by_cases h : p a = true
      · rw [List.filter_cons_of_pos h, List.filter_cons_of_neg (by simp [h])]
        simp only [List.length_cons]
        omega
      · rw [List.filter_cons_of_neg h, List.filter_cons_of_pos (by simp [h])]
        simp only [List.length_cons]
        omega

/-- C2: the temporal split cuts at `max(feature_date) − val_weeks` weeks,
putting rows strictly before the cutoff in train and the rest in
validation.  Consequently the two parts partition the input, every train
date is strictly below every validation date and, in particular,
`max(train.feature_date) < min(val.feature_date)` whenever both parts are
non-empty. -/
theorem create_train_val_split_no_overlap (df : List MRow) (val_weeks : ℕ)
    (hne : df ≠ []) (hv : 1 ≤ val_weeks) :
    ((create_train_val_split df val_weeks).1.length
        + (create_train_val_split df val_weeks).2.length = df.length)
    ∧ (∀ a ∈ (create_train_val_split df val_weeks).1,
        ∀ b ∈ (create_train_val_split df val_weeks).2, a.feature_date < b.feature_date)
    ∧ (∀ mt mv,
        listMax? ((create_train_val_split df val_weeks).1.map MRow.feature_date) = some mt →
        listMin? ((create_train_val_split df val_weeks).2.map MRow.feature_date) = some mv →
        mt < mv) := by
  have hv0 : 0 < val_weeks := hv
  unfold create_train_val_split
  dsimp only
  set s := sortValuesBy (fun a b => decide (a.feature_date ≤ b.feature_date)) df with hs
  have hslen : s.length = df.length := length_sortValuesBy _ _
  have hsne : s ≠ [] := by
    intro h0
    apply hne
    have : df.length = 0 := by rw [← hslen, h0]; rfl
    exact List.length_eq_zero.mp this
  obtain ⟨m, hm⟩ : ∃ m, listMax? (s.map MRow.feature_date) = some m := by
    cases hc : s with
    | nil => exact absurd hc hsne
    | cons a t => exact ⟨_, rfl⟩
  rw [hm]
  dsimp only
  refine ⟨?_, ?_, ?_⟩
  · have hcong :
        s.filter (fun r => decide (m - 7 * (val_weeks : ℤ) ≤ r.feature_date))
          = s.filter (fun r => !(decide (r.feature_date < m - 7 * (val_weeks : ℤ)))) := by
      apply List.filter_congr
      intro r _
      rw [← decide_not, decide_eq_decide]
      omega
    rw [hcong, length_filter_add_not, hslen]
  · intro a ha b hb
    have h1 : a.feature_date < m - 7 * (val_weeks : ℤ) := by
      simpa using List.of_mem_filter ha
    have h2 : m - 7 * (val_weeks : ℤ) ≤ b.feature_date := by
      simpa using List.of_mem_filter hb
    omega
  · intro mt mv hmt hmv
    have hmt_mem := listMax?_mem hmt
    have hmv_mem := listMin?_mem hmv
    obtain ⟨a, ha, rfl⟩ := List.mem_map.mp hmt_mem
    obtain ⟨b, hb, rfl⟩ := List.mem_map.mp hmv_mem
    have h1 : a.feature_date < m - 7 * (val_weeks : ℤ) := by
      simpa using List.of_mem_filter ha
    have h2 : m - 7 * (val_weeks : ℤ) ≤ b.feature_date := by
      simpa using List.of_mem_filter hb
    omega

/-- C2 witness: a two-row frame (dates 0 and 70) split with one held-out
week partitions into one train row and one validation row. -/
theorem create_train_val_split_no_overlap_witness :
    (create_train_val_split [sampleRow 1 1 0 100, sampleRow 1 1 70 120] 1).1.length
        + (create_train_val_split [sampleRow 1 1 0 100, sampleRow 1 1 70 120] 1).2.length
      = 2 :=
  (create_train_val_split_no_overlap [sampleRow 1 1 0 100, sampleRow 1 1 70 120] 1
    (by decide) (by decide)).1

/-! ## Claim C3 -/

theorem weights_sum_pos (f : List Bool) (hf : f ≠ []) :
    0 < (f.map (fun b => if b then (5 : ℚ) else 1)).sum := by
  induction f with
  | nil => exact absurd rfl hf
  | cons b t ih =>
      rw [List.map_cons, List.sum_cons]
      have hb : 0 < (if b then (5 : ℚ) else 1) := by split <;> norm_num
      rcases eq_or_ne t [] with rfl | ht
      · simpa using hb
      · exact add_pos hb (ih ht)

theorem zipWith_abs_self (y : List ℚ) :
    List.zipWith (fun a b => |a - b|) y y = List.replicate y.length 0 := by
  induction y with
  | nil => rfl
  | cons a t ih => simp [List.replicate_succ, ih]

theorem zipWith_mul_replicate (c : ℚ) :
    ∀ (ws : List ℚ) (n : ℕ), ws.length ≤ n →
      List.zipWith (· * ·) ws (List.replicate n c) = ws.map (· * c) := by
  intro ws
  induction ws with
  | nil => intro n _; simp
  | cons w t ih =>
      intro n hn
      cases n with
      | zero => simp at hn
      | succ k =>
          rw [List.replicate_succ, List.zipWith_cons_cons, List.map_cons,
            ih k (by simpa using hn)]

theorem sum_map_mul_const (l : List ℚ) (c : ℚ) : (l.map (· * c)).sum = l.sum * c := by
  induction l with
  | nil => simp
  | cons a t ih => simp [ih, add_mul]

/-- When every absolute error equals `c` and the input is non-empty, the
WMAE is `c` irrespective of the holiday-flag pattern. -/
theorem calculate_wmae_const_err (y_true y_pred : List ℚ) (f : List Bool) (c : ℚ)
    (hlen2 : f.length = y_true.length) (hne : y_true ≠ [])
    (herr : List.zipWith (fun a b => |a - b|) y_true y_pred
      = List.replicate y_true.length c) :
    calculate_wmae y_true y_pred f = some c := by
  unfold calculate_wmae
  dsimp only
  have hfne : f ≠ [] := by
    intro h0
    rw [h0] at hlen2
    exact hne (List.length_eq_zero.mp hlen2.symm)
  have hpos := weights_sum_pos f hfne
  have hlen_ws : (f.map (fun b => if b then (5 : ℚ) else 1)).length = y_true.length := by
    simpa using hlen2
  rw [herr, zipWith_mul_replicate c _ _ (le_of_eq hlen_ws), sum_map_mul_const]
  rw [if_neg (ne_of_gt hpos)]
  congr 1
  field_simp

theorem sum_weights_range (f : List Bool) :
    (f.map (fun b => if b then (5 : ℚ) else 1)).sum
      = ∑ i ∈ Finset.range f.length, (if f.getD i false then (5 : ℚ) else 1) := by
  induction f with
  | nil => simp
  | cons b t ih =>
      rw [List.map_cons, List.sum_cons, List.length_cons, Finset.sum_range_succ']
      simp only [List.getD_cons_succ, List.getD_cons_zero]
      rw [← ih]
      ring

theorem sum_weighted_range :
    ∀ (y_true y_pred : List ℚ) (f : List Bool), y_pred.length = y_true.length →
      f.length = y_true.length →
      (List.zipWith (· * ·) (f.map (fun b => if b then (5 : ℚ) else 1))
        (List.zipWith (fun a b => |a - b|) y_true y_pred)).sum
      = ∑ i ∈ Finset.range y_true.length,
          (if f.getD i false then (5 : ℚ) else 1) * |y_true.getD i 0 - y_pred.getD i 0| := by
  intro y_true
  induction y_true with
  | nil =>
      intro y_pred f h1 h2
      simp
  | cons a t ih =>
      intro y_pred f h1 h2
      cases y_pred with
      | nil => simp at h1
      | cons b t2 =>
          cases f with
          | nil => simp at h2
          | cons hb t3 =>
              rw [List.map_cons, List.zipWith_cons_cons, List.zipWith_cons_cons,
                List.sum_cons, List.length_cons, Finset.sum_range_succ']
              simp only [List.getD_cons_succ, List.getD_cons_zero]
              rw [ih t2 t3 (by simpa using h1) (by simpa using h2)]
              ring

/-- C3: `calculate_wmae` weights holiday rows 5 : 1 and returns
`Σ wᵢ·|eᵢ| / Σ wᵢ`; it is 0 on perfect predictions, 100.0 on the worked
example, and unchanged by permuting which index carries the holiday flag
when all absolute errors coincide. -/
theorem calculate_wmae_spec :
    (∀ (y_true y_pred : List ℚ) (is_holiday : List Bool),
        y_pred.length = y_true.length → is_holiday.length = y_true.length → y_true ≠ [] →
        calculate_wmae y_true y_pred is_holiday
          = some ((∑ i ∈ Finset.range y_true.length,
                (if is_holiday.getD i false then (5 : ℚ) else 1)
                  * |y_true.getD i 0 - y_pred.getD i 0|)
              / ∑ i ∈ Finset.range y_true.length,
                  (if is_holiday.getD i false then (5 : ℚ) else 1)))
    ∧ (∀ (y : List ℚ) (f : List Bool), f.length = y.length → y ≠ [] →
        calculate_wmae y y f = some 0)
    ∧ calculate_wmae [1000, 1000] [1100, 1100] [true, false] = some 100
    ∧ (∀ (y_true y_pred : List ℚ) (f₁ f₂ : List Bool) (c : ℚ),
        f₁.length = y_true.length → y_true ≠ [] →
        List.zipWith (fun a b => |a - b|) y_true y_pred
          = List.replicate y_true.length c →
        f₂.Perm f₁ →
        calculate_wmae y_true y_pred f₁ = calculate_wmae y_true y_pred f₂) := by
  refine ⟨?_, ?_, ?_, ?_⟩
  · intro y_true y_pred is_holiday h1 h2 hne
    unfold calculate_wmae
    dsimp only
    have hfne : is_holiday ≠ [] := by
      intro h0
      rw [h0] at h2
      exact hne (List.length_eq_zero.mp h2.symm)
    have hpos := weights_sum_pos is_holiday hfne
    rw [if_neg (ne_of_gt hpos)]
    rw [sum_weighted_range y_true y_pred is_holiday h1 h2]
    rw [sum_weights_range, h2]
  · intro y f hlen hne
    exact calculate_wmae_const_err y y f 0 hlen hne (zipWith_abs_self y)
  · unfold calculate_wmae
    norm_num [List.zipWith_cons_cons, abs_of_nonpos]
  · intro y_true y_pred f₁ f₂ c hlen hne herr hperm
    rw [calculate_wmae_const_err y_true y_pred f₁ c hlen hne herr,
      calculate_wmae_const_err y_true y_pred f₂ c (by rw [hperm.length_eq, hlen]) hne herr]

/-- C3 witness: the spec formula, instantiated on a concrete two-element
input. -/
theorem calculate_wmae_spec_witness :
    calculate_wmae [10, 20] [10, 20] [true, false] = some 0 :=
  calculate_wmae_spec.2.1 [10, 20] [true, false] (by decide) (by decide)

/-! ## Claim C5 -/

/-- C5 counterexample: on the forecast date 2024-01-05 the generator sets
`is_month_start = 1` (its rule is `day <= 7`), while
`create_temporal_features` derives `is_month_start = 0` (pandas
`dt.is_month_start` is true only on day 1), so the overwritten calendar
field does not equal the temporal builder's value. -/
theorem build_forecast_feature_row_month_start_mismatch :
    (build_forecast_feature_row (sampleRow 1 1 0 100) (daysFromCivil 2024 1 5)).base.is_month_start
      ≠ (temporal_update { sampleRow 1 1 0 100 with date := daysFromCivil 2024 1 5 }).is_month_start := by
  decide

/-- C5 (amended): the per-horizon feature vector keeps every non-calendar
column at the base row's value, and its week-of-year, month and quarter
match what `create_temporal_features` would derive for the forecast date;
the two month-boundary flags, however, are the generator's own
week-granularity approximations `day ≤ 7` / `day ≥ 24` rather than the
temporal builder's exact first/last-day flags. -/
theorem build_forecast_feature_row_spec (r : MRow) (fd : ℤ) :
    (build_forecast_feature_row r fd).base
      = { r with
          week_of_year := (temporal_update { r with date := fd }).week_of_year
          month := (temporal_update { r with date := fd }).month
          quarter := (temporal_update { r with date := fd }).quarter
          is_month_start := some (if dayOf fd ≤ 7 then 1 else 0)
          is_month_end := some (if 24 ≤ dayOf fd then 1 else 0) } := by
  have hm := one_le_monthOf fd
  simp only [build_forecast_feature_row, temporal_update, MRow.mk.injEq, Option.some.injEq,
    and_true, true_and]
  omega

/-- C5 amended claim instantiated at a concrete base row and forecast date
(2024-02-29, a day on which both approximate flags fire differently from
the exact pandas flags for other dates). -/
theorem build_forecast_feature_row_spec_witness :
    (build_forecast_feature_row (sampleRow 3 7 0 42) (daysFromCivil 2024 2 29)).base
      = { sampleRow 3 7 0 42 with
          week_of_year :=
            (temporal_update { sampleRow 3 7 0 42 with
              date := daysFromCivil 2024 2 29 }).week_of_year
          month :=
            (temporal_update { sampleRow 3 7 0 42 with
              date := daysFromCivil 2024 2 29 }).month
          quarter :=
            (temporal_update { sampleRow 3 7 0 42 with
              date := daysFromCivil 2024 2 29 }).quarter
          is_month_start := some (if dayOf (daysFromCivil 2024 2 29) ≤ 7 then 1 else 0)
          is_month_end := some (if 24 ≤ dayOf (daysFromCivil 2024 2 29) then 1 else 0) } :=
  build_forecast_feature_row_spec (sampleRow 3 7 0 42) (daysFromCivil 2024 2 29)

/-! ## Claim C10 -/

theorem length_flatMap_const (l : List α) (f : α → List β) (k : ℕ)
    (h : ∀ a, (f a).length = k) : (l.flatMap f).length = l.length * k := by
  induction l with
  | nil => simp
  | cons a t ih =>
      rw [List.flatMap_cons, List.length_append, h a, ih, List.length_cons]
      ring

theorem flatMap_segment (f : α → List β) (k : ℕ) (h : ∀ a, (f a).length = k) :
    ∀ (l : List α) (i : ℕ) (a : α), l[i]? = some a →
      ((l.flatMap f).drop (i * k)).take k = f a := by
  intro l
  induction l with
  | nil => intro i a ha; simp at ha
  | cons b t ih =>
      intro i a ha
      cases i with
      | zero =>
          rw [List.getElem?_cons_zero, Option.some.injEq] at ha
          subst ha
          rw [List.flatMap_cons, Nat.zero_mul, List.drop_zero, ← h b, List.take_left]
      | succ j =>
          rw [List.getElem?_cons_succ] at ha
          have harith : (j + 1) * k = (f b).length + j * k := by rw [h b]; ring
          rw [List.flatMap_cons, harith, ← List.drop_drop, List.drop_left]
          exact ih j a ha

/-- C10: `generate_predictions` derives its forecast dates once from the
global maximum of `feature_date`: with a non-empty input every
(store, dept) row receives the same `forecast_weeks` dates
`global_max + 7·w` (w = 1 … weeks) — even a series whose own latest
observation is older — and the output has exactly
`len(input) · forecast_weeks` rows. -/
theorem generate_predictions_global_grid (predict : GenFeatureRow → ℚ)
    (features_df : List MRow) (forecast_weeks : ℕ) (last_date : ℤ) (i : ℕ) (r : MRow)
    (hmax : listMax? (features_df.map MRow.feature_date) = some last_date)
    (hget : features_df[i]? = some r) :
    (generate_predictions predict features_df forecast_weeks).length
        = features_df.length * forecast_weeks
    ∧ (((generate_predictions predict features_df forecast_weeks).drop
          (i * forecast_weeks)).take forecast_weeks).map ForecastRow.forecast_date
      = (List.range forecast_weeks).map (fun (w : ℕ) => last_date + 7 * ((w : ℤ) + 1)) := by
  unfold generate_predictions
  rw [hmax]
  dsimp only
  have hlen : ∀ row : MRow,
      ((List.range forecast_weeks).map (fun (w : ℕ) =>
        let forecast_date := last_date + 7 * ((w : ℤ) + 1)
        let pred0 := predict (build_forecast_feature_row row forecast_date)
        let pred := max pred0 0
        let std_estimate := max (pred * (15 / 100)) 100
        let lower := max (pred - (196 / 100) * std_estimate) 0
        let upper := pred + (196 / 100) * std_estimate
        ({ store_id := row.store_id
           dept_id := row.dept_id
           forecast_date := forecast_date
           predicted_sales := roundTo 2 pred
           prediction_lower := roundTo 2 lower
           prediction_upper := roundTo 2 upper
           model_name := "lightgbm_forecaster"
           model_version := "v1.0"
           confidence_score := roundTo 4 (85 / 100 - (2 / 100) * (w : ℚ)) } : ForecastRow))).length
      = forecast_weeks := by
    intro row
    rw [List.length_map, List.length_range]
  refine ⟨length_flatMap_const _ _ _ hlen, ?_⟩
  rw [flatMap_segment _ _ hlen features_df i r hget, List.map_map]
  rfl

/-- Base rows for the C10 witness: the second series' latest feature date
(7) is the global maximum, the first series' own latest date is older. -/
def wRowA : MRow := sampleRow 1 1 0 100

/-- Companion row for the C10 witness. -/
def wRowB : MRow := sampleRow 2 1 7 50

/-- C10 witness: with two latest-feature rows whose dates are 0 and 7, the
series with the older date still gets the global grid 14, 21. -/
theorem generate_predictions_global_grid_witness :
    (((generate_predictions (fun _ => 0) [wRowA, wRowB] 2).drop (0 * 2)).take 2).map
        ForecastRow.forecast_date
      = [14, 21] :=
  (generate_predictions_global_grid (fun _ => 0) [wRowA, wRowB] 2 7 0 wRowA
    (by decide) rfl).2

/-! ## Claim C1 -/

/-- The `sales_lag_k` column selected by its lag `k`. -/
def lagOf (r : MRow) : ℕ → Option ℚ
  | 1 => r.sales_lag_1
  | 2 => r.sales_lag_2
  | 4 => r.sales_lag_4
  | 8 => r.sales_lag_8
  | 52 => r.sales_lag_52
  | _ => none

theorem sdPair_setLags (r : MRow) (p : List ℚ) : sdPair (setLags r p) = sdPair r := rfl

theorem weekly_sales_setLags (r : MRow) (p : List ℚ) :
    (setLags r p).weekly_sales = r.weekly_sales := rfl

theorem lagOf_setLags (r : MRow) (p : List ℚ) (k : ℕ)
    (hk : k ∈ ([1, 2, 4, 8, 52] : List ℕ)) :
    lagOf (setLags r p) k = nthFromEnd p k := by
  fin_cases hk <;> rfl

/-- The (store_id, dept_id) partition of a frame: the subsequence of rows
with group key `g`, in frame order. -/
def groupOf (g : ℕ × ℕ) (l : List MRow) : List MRow :=
  l.filter (fun x => decide (sdPair x = g))

theorem groupOf_nil (g : ℕ × ℕ) : groupOf g [] = [] := rfl

theorem groupOf_cons_pos (g : ℕ × ℕ) (x : MRow) (xs : List MRow) (h : sdPair x = g) :
    groupOf g (x :: xs) = x :: groupOf g xs := by
  simp [groupOf, List.filter_cons, h]

theorem groupOf_cons_neg (g : ℕ × ℕ) (x : MRow) (xs : List MRow) (h : ¬sdPair x = g) :
    groupOf g (x :: xs) = groupOf g xs := by
  simp [groupOf, List.filter_cons, h]

theorem groupOf_append (g : ℕ × ℕ) (l₁ l₂ : List MRow) :
    groupOf g (l₁ ++ l₂) = groupOf g l₁ ++ groupOf g l₂ :=
  List.filter_append _ _

/-- Reference per-partition lag assignment: walk one partition in order,
`p` being the target values of the rows already passed. -/
def lagAux (p : List ℚ) : List MRow → List MRow
  | [] => []
  | r :: rest => setLags r p :: lagAux (p ++ [r.weekly_sales]) rest

/-- The groupby-shift walk restricted to one partition is exactly the
per-partition lag assignment: the output rows of group `g` are the input
rows of group `g`, each lagged against only its own group's predecessors. -/
theorem lagGo_groupOf (g : ℕ × ℕ) :
    ∀ (l seen : List MRow),
      groupOf g (lagGo seen l)
        = lagAux ((groupOf g seen).map MRow.weekly_sales) (groupOf g l) := by
  intro l
  induction l with
  | nil => intro seen; rfl
  | cons r rest ih =>
      intro seen
      simp only [lagGo]
      by_cases hg : sdPair r = g
      · have hfseen :
            List.filter (fun x => decide (sdPair x = sdPair r)) seen = groupOf g seen := by
          unfold groupOf
          simp only [hg]
        rw [groupOf_cons_pos g _ _ (by rw [sdPair_setLags]; exact hg),
          groupOf_cons_pos g r rest hg]
        simp only [lagAux]
        rw [hfseen]
        congr 1
        rw [ih (seen ++ [r]), groupOf_append, groupOf_cons_pos g r [] hg, groupOf_nil]
        simp [List.map_append]
      · rw [groupOf_cons_neg g _ _ (by rw [sdPair_setLags]; exact hg),
          groupOf_cons_neg g r rest hg,
          ih (seen ++ [r]), groupOf_append, groupOf_cons_neg g r [] hg, groupOf_nil]
        simp

theorem lagAux_getElem? :
    ∀ (l : List MRow) (p : List ℚ) (i : ℕ),
      (lagAux p l)[i]?
        = (l[i]?).map (fun r => setLags r (p ++ (l.take i).map MRow.weekly_sales)) := by
  intro l
  induction l with
  | nil => intro p i; simp [lagAux]
  | cons r rest ih =>
      intro p i
      cases i with
      | zero => simp [lagAux]
      | succ j =>
          simp only [lagAux, List.getElem?_cons_succ, ih (p ++ [r.weekly_sales]) j,
            List.take_succ_cons, List.map_cons]
          simp [List.append_assoc, List.singleton_append]

/-- C1: `create_lag_features` sorts internally, so its output is invariant
under permuting the input rows (whenever the (store, dept, date) sort keys
are distinct, i.e. the composite identity of the sales table holds), and
within each (store_id, dept_id) partition in date order the lag-`k` column
of row `i` is the target value of row `i − k` of the same partition, null
for `i < k`. -/
theorem create_lag_features_no_leakage (rows rowsPerm : List MRow)
    (hnd : (rows.map sddKey).Nodup) (hperm : rowsPerm.Perm rows) :
    create_lag_features rowsPerm = create_lag_features rows
    ∧ ∀ (g : ℕ × ℕ) (k : ℕ), k ∈ ([1, 2, 4, 8, 52] : List ℕ) →
        ∀ (i : ℕ) (r : MRow), (groupOf g (create_lag_features rows))[i]? = some r →
          lagOf r k = if k ≤ i
            then ((groupOf g (create_lag_features rows))[i - k]?).map MRow.weekly_sales
            else none := by
  constructor
  · have hsortP := pairwise_sortValuesBy leSDD leSDD_total leSDD_trans rowsPerm
    have hsortR := pairwise_sortValuesBy leSDD leSDD_total leSDD_trans rows
    have hpermPR : (sortValuesBy leSDD rowsPerm).Perm (sortValuesBy leSDD rows) :=
      (perm_sortValuesBy leSDD rowsPerm).trans
        (hperm.trans (perm_sortValuesBy leSDD rows).symm)
    have hndR : ((sortValuesBy leSDD rows).map sddKey).Nodup :=
      ((perm_sortValuesBy leSDD rows).map sddKey).symm.nodup hnd
    have hndP : ((sortValuesBy leSDD rowsPerm).map sddKey).Nodup :=
      (hpermPR.map sddKey).symm.nodup hndR
    have hsorteq := eq_of_perm_of_sorted_keys sddKey leSDD leSDD_key_antisymm
      (sortValuesBy leSDD rowsPerm) (sortValuesBy leSDD rows) hpermPR hsortP hsortR hndP
    unfold create_lag_features
    rw [hsorteq]
  · intro g k hk i r hget
    have hk1 : 1 ≤ k := by fin_cases hk <;> norm_num
    unfold create_lag_features at hget ⊢
    rw [lagGo_groupOf g (sortValuesBy leSDD rows) []] at hget ⊢
    rw [groupOf_nil, List.map_nil] at hget ⊢
    set sub := groupOf g (sortValuesBy leSDD rows) with hsub
    rw [lagAux_getElem?, List.nil_append] at hget
    obtain ⟨r0, hr0, hr⟩ := Option.map_eq_some'.mp hget
    subst hr
    have hi : i < sub.length := by
      by_contra hnot
      rw [List.getElem?_eq_none (by omega)] at hr0
      exact Option.noConfusion hr0
    have hvals_len : ((sub.take i).map MRow.weekly_sales).length = i := by
      rw [List.length_map, List.length_take]
      omega
    rw [lagOf_setLags r0 _ k hk]
    unfold nthFromEnd
    rw [hvals_len]
    by_cases hki : k ≤ i
    · rw [if_pos hki, if_pos hki, List.getElem?_map, List.getElem?_take, if_pos (by omega),
        lagAux_getElem?, List.nil_append, Option.map_map]
      cases h2 : sub[i - k]? <;> rfl
    · rw [if_neg hki, if_neg hki]

/-- First row of the C1 witness scenario (the spec §8 example: one
(store, dept) series with sales 100, 200, 150 on consecutive weeks). -/
def wr1 : MRow := sampleRow 1 1 0 100

/-- Second row of the C1 witness scenario. -/
def wr2 : MRow := sampleRow 1 1 7 200

/-- Third row of the C1 witness scenario. -/
def wr3 : MRow := sampleRow 1 1 14 150

/-- C1 witness: shuffling the three-row series does not change the lag
builder's output. -/
theorem create_lag_features_no_leakage_witness :
    create_lag_features [wr2, wr1, wr3] = create_lag_features [wr1, wr2, wr3] :=
  (create_lag_features_no_leakage [wr1, wr2, wr3] [wr2, wr1, wr3]
    (by decide) (by decide)).1

/-! ## Claim C4 -/

theorem length_lagGo : ∀ (l seen : List MRow), (lagGo seen l).length = l.length := by
  intro l
  induction l with
  | nil => intro seen; rfl
  | cons r rest ih => intro seen; simp [lagGo, ih]

theorem length_rollGo (sqrtQ : ℚ → ℚ) :
    ∀ (l seen : List MRow), (rollGo sqrtQ seen l).length = l.length := by
  intro l
  induction l with
  | nil => intro seen; rfl
  | cons r rest ih => intro seen; simp [rollGo, ih]

theorem length_ecoGo (all : List MRow) :
    ∀ (l seen : List MRow), (ecoGo all seen l).length = l.length := by
  intro l
  induction l with
  | nil => intro seen; rfl
  | cons r rest ih => intro seen; simp [ecoGo, ih]

/-- A filter for one key value of a column with pairwise-distinct values
keeps at most one row (uniqueness of a join key). -/
theorem filter_single_of_nodup {κ : Type} [DecidableEq κ] (key : α → κ) :
    ∀ (l : List α), (l.map key).Nodup → ∀ c,
      (l.filter (fun x => decide (key x = c))).length ≤ 1 := by
  intro l
  induction l with
  | nil => intro _ c; simp
  | cons a t ih =>
      intro hnd c
      rw [List.map_cons, List.nodup_cons] at hnd
      by_cases h : key a = c
      · rw [List.filter_cons_of_pos (by simpa using h)]
        have hnil : t.filter (fun x => decide (key x = c)) = [] := by
          rw [List.filter_eq_nil_iff]
          intro x hx
          simp only [decide_eq_true_eq]
          intro heq
          exact hnd.1 (by rw [h, ← heq]; exact List.mem_map_of_mem key hx)
        rw [hnil]
        exact le_refl 1
      · rw [List.filter_cons_of_neg (by simpa using h)]
        exact ih hnd.2 c

theorem length_flatMap_one (l : List α) (f : α → List β)
    (h : ∀ a ∈ l, (f a).length = 1) : (l.flatMap f).length = l.length := by
  induction l with
  | nil => rfl
  | cons a t ih =>
      rw [List.flatMap_cons, List.length_append, h a (List.mem_cons_self a t),
        ih (fun x hx => h x (List.mem_cons_of_mem a hx)), List.length_cons]
      omega

theorem length_merge_sales_features (sales_df : List SalesRow) (features_df : List FeatRow)
    (hfeat : (features_df.map (fun f => (f.store_id, f.date))).Nodup) :
    (merge_sales_features sales_df features_df).length = sales_df.length := by
  unfold merge_sales_features
  apply length_flatMap_one
  intro s _
  dsimp only
  have hcong :
      features_df.filter (fun f => decide (f.store_id = s.store_id ∧ f.date = s.date))
        = features_df.filter
            (fun f => decide ((f.store_id, f.date) = (s.store_id, s.date))) := by
    apply List.filter_congr
    intro f _
    rw [decide_eq_decide, Prod.mk.injEq]
  rw [hcong]
  set ms := features_df.filter
    (fun f => decide ((f.store_id, f.date) = (s.store_id, s.date))) with hms
  have hle : ms.length ≤ 1 := filter_single_of_nodup _ features_df hfeat _
  by_cases hempty : ms.isEmpty
  · rw [if_pos hempty]
    rfl
  · rw [if_neg hempty, List.length_map]
    have hne : ms ≠ [] := by simpa [List.isEmpty_iff] using hempty
    have := List.length_pos.mpr hne
    omega

theorem length_create_store_features (sqrtQ : ℚ → ℚ) (df : List MRow)
    (stores_df : List StoreRow) (hstores : (stores_df.map StoreRow.store_id).Nodup) :
    (create_store_features sqrtQ df stores_df).length = df.length := by
  unfold create_store_features
  dsimp only
  rw [List.length_map]
  apply length_flatMap_one
  intro r _
  dsimp only
  set ms := stores_df.filter (fun st => decide (st.store_id = r.store_id)) with hms
  have hle : ms.length ≤ 1 := filter_single_of_nodup StoreRow.store_id stores_df hstores _
  by_cases hempty : ms.isEmpty
  · rw [if_pos hempty]
    rfl
  · rw [if_neg hempty, List.length_map]
    have hne : ms ≠ [] := by simpa [List.isEmpty_iff] using hempty
    have := List.length_pos.mpr hne
    omega

theorem length_create_temporal_features (df : List MRow) :
    (create_temporal_features df).length = df.length :=
  List.length_map df temporal_update

theorem length_create_lag_features (df : List MRow) :
    (create_lag_features df).length = df.length := by
  unfold create_lag_features
  rw [length_lagGo, length_sortValuesBy]

theorem length_create_rolling_features (sqrtQ : ℚ → ℚ) (df : List MRow) :
    (create_rolling_features sqrtQ df).length = df.length := by
  unfold create_rolling_features
  rw [length_rollGo, length_sortValuesBy]

theorem length_create_economic_features (df : List MRow) :
    (create_economic_features df).length = df.length := by
  unfold create_economic_features
  dsimp only
  rw [length_ecoGo, length_sortValuesBy]

theorem length_create_markdown_features (df : List MRow) :
    (create_markdown_features df).length = df.length :=
  List.length_map df _

/-- C4: `engineer_features` produces exactly one output row per sales row
whenever the indicators table is uniquely keyed by (store_id, date) and
the stores table is uniquely keyed by store_id — the sales-anchored left
joins neither filter nor duplicate, however incomplete the indicator or
store data is. -/
theorem engineer_features_row_count (sqrtQ : ℚ → ℚ) (sales_df : List SalesRow)
    (features_df : List FeatRow) (stores_df : List StoreRow)
    (hfeat : (features_df.map (fun f => (f.store_id, f.date))).Nodup)
    (hstores : (stores_df.map StoreRow.store_id).Nodup) :
    (engineer_features sqrtQ sales_df features_df stores_df).length = sales_df.length := by
  unfold engineer_features
  rw [length_create_store_features _ _ _ hstores, length_create_markdown_features,
    length_create_economic_features, length_create_rolling_features,
    length_create_lag_features, length_create_temporal_features]
  exact length_merge_sales_features sales_df features_df hfeat

/-- Sales table for the C4 witness (two departments of one store). -/
def wSales : List SalesRow := [⟨1, 1, 0, 100, false⟩, ⟨1, 2, 0, 50, true⟩]

/-- Indicators table for the C4 witness (covering only one of the weeks,
with every markdown missing). -/
def wFeats : List FeatRow := [⟨1, 0, 60, 3, none, none, none, none, none, 200, 5, false⟩]

/-- Stores table for the C4 witness. -/
def wStores : List StoreRow := [⟨1, SType.A, 15000⟩]

/-- C4 witness: the pipeline output on the concrete tables has exactly as
many rows as the sales input. -/
theorem engineer_features_row_count_witness :
    (engineer_features (fun q => q) wSales wFeats wStores).length = 2 :=
  engineer_features_row_count (fun q => q) wSales wFeats wStores (by decide) (by decide)

end WalmartSpec
